import Mathlib

/-!
Verification development for the mxchatbot-unified-search service
(src/index.js).  The JavaScript source is shallowly embedded: strings are
lists of characters, JS numbers are exact rationals, timestamps are
rational milliseconds since the epoch, network responses are explicit
Except-valued inputs, and the stable Array.prototype.sort mandated by
ECMAScript is realised by a stable insertion sort.  Rational arithmetic is
spelled with the kernel-computable wrappers qAdd, qMul, qSub, qDiv, qNat
and qInt (core Rat.add and friends are irreducible); the bridge lemmas
qAdd_eq etc. show they are the ordinary field operations on the rationals.
-/

/-- JS strings are modelled as lists of characters. -/
abbrev Str := List Char

/-- Kernel-computable rational addition (equals ordinary addition, see qAdd_eq). -/
def qAdd (a b : ℚ) : ℚ := Rat.divInt (a.num * b.den + b.num * a.den) (a.den * b.den)

/-- Kernel-computable rational multiplication. -/
def qMul (a b : ℚ) : ℚ := Rat.divInt (a.num * b.num) (a.den * b.den)

/-- Kernel-computable rational subtraction. -/
def qSub (a b : ℚ) : ℚ := Rat.divInt (a.num * b.den - b.num * a.den) (a.den * b.den)

/-- Kernel-computable rational division. -/
def qDiv (a b : ℚ) : ℚ := Rat.divInt (a.num * b.den) (a.den * b.num)

/-- Kernel-computable embedding of a natural number into the rationals. -/
def qNat (n : ℕ) : ℚ := mkRat n 1

/-- Kernel-computable embedding of an integer into the rationals. -/
def qInt (i : ℤ) : ℚ := Rat.divInt i 1

/-- Lowercasing a string, as String.prototype.toLowerCase maps characters. -/
def toLowerStr (s : Str) : Str := s.map Char.toLower

/-- The whitespace class used by JS regular expressions and String.prototype.trim
(restricted to the characters that can appear in our data). -/
def jsWhitespace (c : Char) : Bool :=
  c == ' ' || c == '\t' || c == '\n' || c == '\r' || c == '\x0b' || c == '\x0c' || c == '\u00A0'

/-- String.prototype.trim: drop whitespace from both ends. -/
def jsTrim (s : Str) : Str :=
  ((s.dropWhile jsWhitespace).reverse.dropWhile jsWhitespace).reverse

/-- Boolean prefix test on character lists. -/
def isPrefixOfB : Str → Str → Bool
  | [], _ => true
  | _ :: _, [] => false
  | p :: ps, c :: cs => p == c && isPrefixOfB ps cs

/-- String.prototype.includes: substring containment of pat in hay. -/
def containsSub : Str → Str → Bool
  | [], pat => pat.isEmpty
  | c :: t, pat => isPrefixOfB pat (c :: t) || containsSub t pat

/-- Splitting on a character class, keeping empty segments, as
String.prototype.split with a single-character separator does (and, once
empty segments are discarded, as splitting on a /\s+/ run does). -/
def splitP (p : Char → Bool) : Str → List Str
  | [] => [[]]
  | c :: cs =>
    if p c then [] :: splitP p cs
    else
      match splitP p cs with
      | [] => [[c]]
      | t :: ts => (c :: t) :: ts

/-- Array.prototype.join with a separator. -/
def joinSep (sep : Str) : List Str → Str
  | [] => []
  | [x] => x
  | x :: xs => x ++ sep ++ joinSep sep xs

/-- Index of the last occurrence of a character, none when absent. -/
def lastIdxOf (c : Char) : Str → Option ℕ
  | [] => none
  | a :: as =>
    match lastIdxOf c as with
    | some i => some (i + 1)
    | none => if a == c then some 0 else none

/-- String.prototype.lastIndexOf for a single character: the index, or -1. -/
def jsLastIndexOf (s : Str) (c : Char) : ℤ :=
  (lastIdxOf c s).elim (-1) (fun i => (i : ℤ))

/-- String.prototype.replace with a global literal pattern (head p, tail ps),
replacing with rep; the replacement text is not rescanned, matching JS.  The
fuel argument only makes the recursion structural; the wrapper below feeds
it the input length, which a match (consuming at least one character per
fuel step) can never exhaust. -/
def replaceAllF (p : Char) (ps rep : Str) : ℕ → Str → Str
  | _, [] => []
  | 0, s => s
  | fuel + 1, c :: cs =>
    if c == p && isPrefixOfB ps cs then
      rep ++ replaceAllF p ps rep fuel (cs.drop ps.length)
    else c :: replaceAllF p ps rep fuel cs

/-- The global literal replace at adequate fuel. -/
def replaceAll (p : Char) (ps rep s : Str) : Str := replaceAllF p ps rep s.length s

/-- The replace of /\<[^>]*>/g by a single space: a run from a < through the
next > becomes one space; a < with no later > is left in place.  Fuel as in
replaceAllF. -/
def stripTagsF : ℕ → Str → Str
  | _, [] => []
  | 0, s => s
  | fuel + 1, c :: cs =>
    if c = '<' ∧ '>' ∈ cs then
      ' ' :: stripTagsF fuel ((cs.dropWhile (fun d => d != '>')).drop 1)
    else c :: stripTagsF fuel cs

/-- The tag strip at adequate fuel. -/
def stripTags (s : Str) : Str := stripTagsF s.length s

/-- The six sequential entity replaces of the source, in source order. -/
def decodeEntities (s : Str) : Str :=
  let s1 := replaceAll '&' "nbsp;".toList " ".toList s
  let s2 := replaceAll '&' "amp;".toList "&".toList s1
  let s3 := replaceAll '&' "lt;".toList "<".toList s2
  let s4 := replaceAll '&' "gt;".toList ">".toList s3
  let s5 := replaceAll '&' "quot;".toList "\"".toList s4
  replaceAll '&' "#39;".toList "\x27".toList s5

/-- The replace of /\s+/g by a single space: each whitespace run collapses
to the single space emitted at the end of the run. -/
def collapseWs : Str → Str
  | [] => []
  | [c] => if jsWhitespace c then [' '] else [c]
  | c :: d :: cs =>
    if jsWhitespace c then
      if jsWhitespace d then collapseWs (d :: cs)
      else ' ' :: collapseWs (d :: cs)
    else c :: collapseWs (d :: cs)

/-- The normalisation chain of stripHtmlAndCreateSnippet before truncation:
strip tags, decode entities, collapse whitespace, trim. -/
def normalizeText (s : Str) : Str :=
  jsTrim (collapseWs (decodeEntities (stripTags s)))

/-- The fallback snippet text. -/
def noPreview : Str := "No preview available".toList

/-- stripHtmlAndCreateSnippet from src/index.js (the string-input case; the
caller-side undefined input is handled by snippetOf below).  The 0.7
multiplier is modelled as the exact rational 7/10. -/
def stripHtmlAndCreateSnippet (htmlText : Str) (maxLength : ℕ) : Str :=
  if htmlText.isEmpty then noPreview
  else
    let cleanText := normalizeText htmlText
    let cleanText2 :=
      if maxLength < cleanText.length then
        let truncated := cleanText.take maxLength
        let lastSpaceIndex := jsLastIndexOf truncated ' '
        if qMul (qNat maxLength) (mkRat 7 10) < qInt lastSpaceIndex then
          (truncated.take lastSpaceIndex.toNat) ++ "...".toList
        else truncated ++ "...".toList
      else cleanText
    if cleanText2.isEmpty then noPreview else cleanText2

/-- Adapter-side call of the snippet helper: article bodies may be absent,
and a non-string input yields the fixed placeholder. -/
def snippetOf (body : Option Str) (maxLength : ℕ) : Str :=
  match body with
  | none => noPreview
  | some s => stripHtmlAndCreateSnippet s maxLength

/-- A JSON-ish value for the request query field, with JS truthiness. -/
inductive JVal where
  | jstr (s : Str)
  | jnum (q : ℚ)
  | jbool (b : Bool)
  | jnull
deriving DecidableEq

/-- JS truthiness of a JVal. -/
def jTruthy : JVal → Bool
  | .jstr s => !s.isEmpty
  | .jnum q => q != 0
  | .jbool b => b
  | .jnull => false

/-- The unified result schema produced by every adapter.  Timestamps are
rational milliseconds since the epoch (ISO-8601 parsing is outside the
embedding); the numeric section identifier is stored as its decimal text;
the metadata object, opaque to the ranker, is omitted. -/
structure SearchResult where
  id : Str
  title : Str
  url : Str
  snippet : Str
  content : Str
  score : ℚ
  source : Str
  category : Option Str
  sectionTag : Option Str
  last_updated : Option ℚ
deriving DecidableEq

/-- An article as returned by the help-center search endpoint. -/
structure Article where
  id : ℕ
  title : Str
  html_url : Str
  body : Option Str
  score : Option ℚ
  section_id : Option ℕ
  updated_at : Option ℚ
deriving DecidableEq

/-- A compact record of the documentation search index (t title, u url path,
b breadcrumbs, i internal id). -/
structure DocEntry where
  t : Str
  u : Str
  b : Option (List Str)
  i : ℕ
deriving DecidableEq

/-- searchZendesk from src/index.js, as a function of the settled network
response (error covers timeout, non-2xx and malformed body, all of which
the adapter catch turns into an empty list). -/
def searchZendesk (resp : Except Unit (List Article)) (_query : Str) (_limit : ℕ) :
    List SearchResult :=
  match resp with
  | .error _ => []
  | .ok articles =>
    articles.map (fun a =>
      { id := "zendesk_".toList ++ (Nat.repr a.id).toList
        title := a.title
        url := a.html_url
        snippet := snippetOf a.body 200
        content := a.body.getD []
        score := a.score.getD 0
        source := "zendesk".toList
        category :=
          match a.section_id with
          | some sid => if sid ≠ 0 then some ("Section ".toList ++ (Nat.repr sid).toList) else none
          | none => none
        sectionTag := a.section_id.map (fun sid => (Nat.repr sid).toList)
        last_updated := a.updated_at })

/-- searchKnowledgeBase from src/index.js: same endpoint as searchZendesk
(with a keyword-extended query on the wire), kb_ ids, 0.8 score weight,
constant category. -/
def searchKnowledgeBase (resp : Except Unit (List Article)) (_query : Str) (_limit : ℕ) :
    List SearchResult :=
  match resp with
  | .error _ => []
  | .ok articles =>
    articles.map (fun a =>
      { id := "kb_".toList ++ (Nat.repr a.id).toList
        title := a.title
        url := a.html_url
        snippet := snippetOf a.body 200
        content := a.body.getD []
        score := qMul (a.score.getD 0) (mkRat 8 10)
        source := "knowledge_base".toList
        category := some ("Knowledge Base".toList)
        sectionTag := a.section_id.map (fun sid => (Nat.repr sid).toList)
        last_updated := a.updated_at })

/-- Stable insertion into a list sorted by score descending: x goes in front
of the first element whose score does not exceed it. -/
def insertDesc (x : SearchResult) : List SearchResult → List SearchResult
  | [] => [x]
  | y :: ys => if y.score ≤ x.score then x :: y :: ys else y :: insertDesc x ys

/-- The stable descending-by-score sort: the behaviour ECMAScript mandates
for Array.prototype.sort with the comparator (a, b) => b.score - a.score. -/
def sortDesc : List SearchResult → List SearchResult
  | [] => []
  | x :: xs => insertDesc x (sortDesc xs)

/-- The host prefix put in front of documentation url paths. -/
def docsHost : Str := "https://help.getmaintainx.com".toList

/-- The scoring block of the documentation adapter, run per index document
on the precomputed lowercased query and long query words. -/
def docLexScore (queryLower : Str) (queryWords : List Str) (d : DocEntry) : ℚ :=
  let titleLower := toLowerStr d.t
  let breadcrumbText :=
    match d.b with
    | some bs => toLowerStr (joinSep " ".toList bs)
    | none => []
  let score0 : ℚ :=
    qAdd (if containsSub titleLower queryLower then 100 else 0)
         (if containsSub breadcrumbText queryLower then 50 else 0)
  queryWords.foldl (fun acc w =>
    qAdd acc (qAdd (if containsSub titleLower w then 20 else 0)
                   (if containsSub breadcrumbText w then 10 else 0))) score0

/-- The result record the documentation adapter pushes, with the final
(already weighted) score sc. -/
def docResultOf (now : ℚ) (sc : ℚ) (d : DocEntry) : SearchResult :=
  { id := "docs_".toList ++ (Nat.repr d.i).toList
    title := d.t
    url := docsHost ++ d.u
    snippet :=
      (match d.b with
       | some bs => joinSep " › ".toList bs
       | none => "Documentation".toList) ++ " - ".toList ++ d.t
    content :=
      d.t ++ " - ".toList ++
      (match d.b with
       | some bs => joinSep ", ".toList bs
       | none => [])
    score := sc
    source := "docs".toList
    category :=
      match d.b with
      | some (c :: _) => some c
      | _ => some ("Documentation".toList)
    sectionTag :=
      match d.b with
      | some (_ :: s :: _) => some s
      | _ => none
    last_updated := some now }

/-- searchDocumentation from src/index.js, as a function of the current time
(the adapter stamps results with it) and the settled index fetch.  The
error case also covers the malformed-index early returns of the source. -/
def searchDocumentation (now : ℚ) (resp : Except Unit (List DocEntry)) (query : Str)
    (limit : ℕ) : List SearchResult :=
  match resp with
  | .error _ => []
  | .ok docs =>
    let queryLower := jsTrim (toLowerStr query)
    let queryWords := (splitP jsWhitespace queryLower).filter (fun w => 2 < w.length)
    let results := docs.filterMap (fun d =>
      if d.t.isEmpty || d.u.isEmpty then none
      else
        let score := docLexScore queryLower queryWords d
        if 0 < score then some (docResultOf now (qMul score (mkRat 9 10)) d)
        else none)
    (sortDesc results).take limit

/-- The fixed source-priority table of rankResults. -/
def sourcePriority (src : Str) : ℚ :=
  if src = "zendesk".toList then 10
  else if src = "knowledge_base".toList then 8
  else if src = "docs".toList then 6
  else 0

/-- The recency boost of rankResults: nothing without a timestamp, +5 under
30 days of age, a further +10 under 7 days. -/
def recencyBoost (now : ℚ) : Option ℚ → ℚ
  | none => 0
  | some t =>
    let daysSinceUpdate := qDiv (qSub now t) 86400000
    qAdd (if daysSinceUpdate < 30 then 5 else 0) (if daysSinceUpdate < 7 then 10 else 0)

/-- The per-result rescoring step of rankResults from src/index.js. -/
def rescore (now : ℚ) (query : Str) (r : SearchResult) : SearchResult :=
  let queryTerms := (splitP (fun c => c == ' ') (toLowerStr query)).filter
    (fun t => 2 < t.length)
  let titleMatches := (queryTerms.filter (fun t => containsSub (toLowerStr r.title) t)).length
  let score1 := qAdd r.score (qMul (qNat titleMatches) 20)
  let score2 :=
    if containsSub (toLowerStr r.title) (toLowerStr query) then qAdd score1 30 else score1
  let score3 := qAdd score2 (sourcePriority r.source)
  let score4 := qAdd score3 (recencyBoost now r.last_updated)
  { r with score := score4 }

/-- rankResults from src/index.js: rescore every result, then the stable
descending sort. -/
def rankResults (now : ℚ) (results : List SearchResult) (query : Str) : List SearchResult :=
  sortDesc (results.map (rescore now query))

/-- The source tag of the help-center adapter. -/
def srcZendesk : Str := "zendesk".toList

/-- The source tag of the documentation adapter. -/
def srcDocs : Str := "docs".toList

/-- The source tag of the knowledge-base adapter. -/
def srcKb : Str := "knowledge_base".toList

/-- The default sources of the endpoint, in its fixed iteration order. -/
def defaultSources : List Str := [srcZendesk, srcDocs, srcKb]

/-- Math.ceil(limit * k/10) on a natural limit, with exact rational arithmetic. -/
def ceilTenths (limit k : ℕ) : ℕ :=
  (Rat.ceil (qMul (qNat limit) (mkRat k 10))).toNat

/-- One planned adapter invocation: the source tag and its share of the limit. -/
structure AdapterCall where
  source : Str
  share : ℕ
deriving DecidableEq

/-- The three sequential membership checks of the handler, pushing a call
per enabled source: zendesk 40 percent, docs 30, knowledge base 30. -/
def planCalls (sources : List Str) (limit : ℕ) : List AdapterCall :=
  (if srcZendesk ∈ sources then [⟨srcZendesk, ceilTenths limit 4⟩] else [])
  ++ (if srcDocs ∈ sources then [⟨srcDocs, ceilTenths limit 3⟩] else [])
  ++ (if srcKb ∈ sources then [⟨srcKb, ceilTenths limit 3⟩] else [])

/-- The settled outcome of one adapter invocation, as Promise.allSettled
reports it: fulfilled with a result list, or rejected. -/
abbrev Oracle := Str → Str → ℕ → Except Unit (List SearchResult)

/-- The forEach over the settled outcomes: concatenate each fulfilled
non-empty value, skip rejections and empty fulfilments. -/
def combineSettled (outs : List (Except Unit (List SearchResult))) : List SearchResult :=
  outs.foldl
    (fun acc o =>
      match o with
      | .ok v => if 0 < v.length then acc ++ v else acc
      | .error _ => acc) []

/-- The request body of POST /api/search/unified (fields the handler reads). -/
structure SearchReq where
  query : Option JVal
  limit : Option ℕ
  sources : Option (List Str)

/-- The response of the handler: a 400 body or a 200 body. -/
inductive HandlerResp where
  | badRequest (error : Str) (queryEcho : JVal)
  | ok (results : List SearchResult) (total returned : ℕ) (queryOut : Str)
      (sourcesOut : List Str)
deriving DecidableEq

/-- The total field of a response (0 on a 400). -/
def HandlerResp.totalOf : HandlerResp → ℕ
  | .badRequest _ _ => 0
  | .ok _ t _ _ _ => t

/-- The results field of a response (empty on a 400). -/
def HandlerResp.resultsOf : HandlerResp → List SearchResult
  | .badRequest _ _ => []
  | .ok rs _ _ _ _ => rs

/-- The 400 error message of the handler. -/
def errQueryMsg : Str := "Query must be at least 2 characters long".toList

/-- The query field echoed by the 400 body: the offending value when truthy,
otherwise the empty string (the JS expression query-or-empty). -/
def echoJV : Option JVal → JVal
  | some v => if jTruthy v then v else .jstr []
  | none => .jstr []

/-- The combined adapter output of one valid request: the planned calls, each
settled through the oracle, concatenated by combineSettled. -/
def unifiedAll (oracle : Oracle) (q : Str) (req : SearchReq) : List SearchResult :=
  combineSettled
    ((planCalls (req.sources.getD defaultSources) (req.limit.getD 10)).map
      (fun c => oracle c.source q c.share))

/-- The POST /api/search/unified handler from src/index.js, as a function of
the settled adapter outcomes and the current time.  The second component
records the adapter invocations performed (empty when validation fails). -/
def unifiedSearch (oracle : Oracle) (now : ℚ) (req : SearchReq) :
    HandlerResp × List AdapterCall :=
  match req.query with
  | some (JVal.jstr s) =>
    if s.isEmpty || decide ((jsTrim s).length < 2) then
      (.badRequest errQueryMsg (echoJV (some (JVal.jstr s))), [])
    else
      let limit := req.limit.getD 10
      let sources := req.sources.getD defaultSources
      let calls := planCalls sources limit
      let allResults := unifiedAll oracle s req
      let rankedResults := rankResults now allResults s
      let finalResults := rankedResults.take limit
      (.ok finalResults allResults.length finalResults.length (jsTrim s)
        (calls.map (fun c => c.source)), calls)
  | some v => (.badRequest errQueryMsg (echoJV (some v)), [])
  | none => (.badRequest errQueryMsg (echoJV none), [])

/-- The settled network inputs of one request: one response per upstream. -/
structure Net where
  zendesk : Except Unit (List Article)
  docsIdx : Except Unit (List DocEntry)
  kb : Except Unit (List Article)

/-- The oracle the real service wires up: each adapter runs on its network
input and always fulfils (its catch-all turns failures into empty lists). -/
def mkOracle (now : ℚ) (net : Net) : Oracle := fun src q lim =>
  if src = srcZendesk then .ok (searchZendesk net.zendesk q lim)
  else if src = srcDocs then .ok (searchDocumentation now net.docsIdx q lim)
  else if src = srcKb then .ok (searchKnowledgeBase net.kb q lim)
  else .error ()

/-- The handler composed with the real adapters. -/
def runUnified (net : Net) (now : ℚ) (req : SearchReq) : HandlerResp × List AdapterCall :=
  unifiedSearch (mkOracle now net) now req

/-- Claim C2's scoring formula as the claim words it, except tokenizing on
the space character, which is what the source's split does (the amended
reading). -/
def specRankScore (now : ℚ) (query : Str) (r : SearchResult) : ℚ :=
  let tokens := (splitP (fun c => c == ' ') (toLowerStr query)).filter
    (fun t => 2 < t.length)
  r.score
    + 20 * (tokens.countP (fun t => containsSub (toLowerStr r.title) t) : ℚ)
    + (if containsSub (toLowerStr r.title) (toLowerStr query) then 30 else 0)
    + sourcePriority r.source
    + recencyBoost now r.last_updated

/-- Claim C2's scoring formula exactly as stated: tokens separated by any
whitespace character. -/
def claimScoreWs (now : ℚ) (query : Str) (r : SearchResult) : ℚ :=
  let tokens := (splitP jsWhitespace (toLowerStr query)).filter (fun t => 2 < t.length)
  r.score
    + 20 * (tokens.countP (fun t => containsSub (toLowerStr r.title) t) : ℚ)
    + (if containsSub (toLowerStr r.title) (toLowerStr query) then 30 else 0)
    + sourcePriority r.source
    + recencyBoost now r.last_updated

/-- Claim C6's lexical score of one documentation index document: 100 for a
full-query title match, 50 for a full-query breadcrumb match, and per long
query word 20 for a title hit and 10 for a breadcrumb hit. -/
def specDocLex (query : Str) (d : DocEntry) : ℚ :=
  let queryLower := jsTrim (toLowerStr query)
  let words := (splitP jsWhitespace queryLower).filter (fun w => 2 < w.length)
  let titleLower := toLowerStr d.t
  let crumbs := toLowerStr (joinSep " ".toList (d.b.getD []))
  (if containsSub titleLower queryLower then 100 else 0)
    + (if containsSub crumbs queryLower then 50 else 0)
    + (words.map (fun w =>
        (if containsSub titleLower w then (20 : ℚ) else 0)
          + (if containsSub crumbs w then 10 else 0))).sum

/-- The result record the documentation adapter builds, its score given by
the claim formula scaled by the documentation weight 0.9. -/
def specDocResult (now : ℚ) (query : Str) (d : DocEntry) : SearchResult :=
  docResultOf now (specDocLex query d * (9 / 10 : ℚ)) d

/-- Claim C4's per-source share of the limit. -/
def specShare (src : Str) (limit : ℕ) : ℕ :=
  if src = srcZendesk then ceilTenths limit 4
  else if src = srcDocs then ceilTenths limit 3
  else if src = srcKb then ceilTenths limit 3
  else 0

/-- Claim C4's plan: the enabled sources in the fixed iteration order, each
with its share of the limit. -/
def specPlan (sources : List Str) (limit : ℕ) : List AdapterCall :=
  (defaultSources.filter (fun t => decide (t ∈ sources))).map
    (fun t => ⟨t, specShare t limit⟩)

/-- The list a settled outcome contributes: its value when fulfilled, nothing
when rejected. -/
def fulfilledOrEmpty : Except Unit (List SearchResult) → List SearchResult
  | .ok v => v
  | .error _ => []

/-- Claim C1's invalidity test on the query field: missing, not a string, or
of trimmed length under 2. -/
def queryInvalid : Option JVal → Bool
  | some (JVal.jstr s) => decide ((jsTrim s).length < 2)
  | _ => true

/-- The position of the last space of a string, characterised as the greatest
index holding a space (the backward search of claim C7). -/
def lastSpaceSpec (t : Str) : Option ℕ :=
  ((List.range t.length).filter (fun i => t.get? i == some ' ')).getLast?

/-- No markup: neither a tag opener nor an entity ampersand occurs. -/
def noMarkupB (s : Str) : Bool := s.all (fun c => c != '<' && c != '&')

/-- Whitespace discipline: every whitespace character is a plain space and no
two spaces are adjacent. -/
def singleSpacedB (s : Str) : Bool :=
  s.all (fun c => !(jsWhitespace c) || (c == ' ')) && !(containsSub s "  ".toList)

/-- Upstream article scores of a settled help-center response are all
nonnegative (vacuous for a rejected response). -/
def scoresOkB : Except Unit (List Article) → Bool
  | .ok as => as.all (fun a => decide (0 ≤ a.score.getD 0))
  | .error _ => true

theorem qAdd_eq (a b : ℚ) : qAdd a b = a + b := by
  unfold qAdd
  have had : ((a.den : ℚ)) ≠ 0 := by positivity
  have hbd : ((b.den : ℚ)) ≠ 0 := by positivity
  rw [Rat.divInt_eq_div]
  push_cast
  conv_rhs => rw [← Rat.num_div_den a, ← Rat.num_div_den b]
  rw [div_add_div _ _ had hbd]
  congr 1
  ring

theorem qMul_eq (a b : ℚ) : qMul a b = a * b := by
  unfold qMul
  rw [Rat.divInt_eq_div]
  push_cast
  conv_rhs => rw [← Rat.num_div_den a, ← Rat.num_div_den b]
  rw [div_mul_div_comm]

theorem qSub_eq (a b : ℚ) : qSub a b = a - b := by
  unfold qSub
  have had : ((a.den : ℚ)) ≠ 0 := by positivity
  have hbd : ((b.den : ℚ)) ≠ 0 := by positivity
  rw [Rat.divInt_eq_div]
  push_cast
  conv_rhs => rw [← Rat.num_div_den a, ← Rat.num_div_den b]
  rw [div_sub_div _ _ had hbd]
  congr 1
  ring

theorem qDiv_eq (a b : ℚ) : qDiv a b = a / b := by
  unfold qDiv
  rcases eq_or_ne b 0 with hb | hb
  · subst hb
    simp [Rat.divInt_eq_div]
  · have hnum : ((b.num : ℚ)) ≠ 0 := by
      exact_mod_cast Rat.num_ne_zero.mpr hb
    have had : ((a.den : ℚ)) ≠ 0 := by positivity
    have hbd : ((b.den : ℚ)) ≠ 0 := by positivity
    rw [Rat.divInt_eq_div]
    push_cast
    conv_rhs => rw [← Rat.num_div_den a, ← Rat.num_div_den b]
    field_simp

theorem qNat_eq (n : ℕ) : qNat n = (n : ℚ) := by
  unfold qNat
  rw [Rat.mkRat_eq_div]
  push_cast
  exact div_one _

theorem qInt_eq (i : ℤ) : qInt i = (i : ℚ) := by
  unfold qInt
  rw [Rat.divInt_one]

theorem insertDesc_perm (x : SearchResult) (l : List SearchResult) :
    List.Perm (insertDesc x l) (x :: l) := by
  induction l with
  | nil => exact List.Perm.refl _
  | cons y ys ih =>
    unfold insertDesc
    split
    · exact List.Perm.refl _
    · exact (ih.cons y).trans (List.Perm.swap x y ys)

theorem sortDesc_perm (l : List SearchResult) : List.Perm (sortDesc l) l := by
  induction l with
  | nil => exact List.Perm.refl _
  | cons x xs ih => exact (insertDesc_perm x (sortDesc xs)).trans (ih.cons x)

theorem insertDesc_sorted (x : SearchResult) (l : List SearchResult)
    (h : l.Pairwise (fun a b => b.score ≤ a.score)) :
    (insertDesc x l).Pairwise (fun a b => b.score ≤ a.score) := by
  induction l with
  | nil => simp [insertDesc]
  | cons y ys ih =>
    unfold insertDesc
    rcases List.pairwise_cons.mp h with ⟨hy, hys⟩
    split
    · rename_i hle
      refine List.pairwise_cons.mpr ⟨?_, h⟩
      intro z hz
      rcases List.mem_cons.mp hz with rfl | hz
      · exact hle
      · exact le_trans (hy z hz) hle
    · rename_i hlt
      push_neg at hlt
      refine List.pairwise_cons.mpr ⟨?_, ih hys⟩
      intro z hz
      rcases List.mem_cons.mp ((insertDesc_perm x ys).mem_iff.mp hz) with rfl | hz
      · exact le_of_lt hlt
      · exact hy z hz

theorem sortDesc_sorted (l : List SearchResult) :
    (sortDesc l).Pairwise (fun a b => b.score ≤ a.score) := by
  induction l with
  | nil => simp [sortDesc]
  | cons x xs ih => exact insertDesc_sorted x (sortDesc xs) ih

theorem insertDesc_filter_eq (x : SearchResult) (l : List SearchResult) (c : ℚ)
    (hx : x.score = c) :
    (insertDesc x l).filter (fun r => r.score == c) =
      x :: l.filter (fun r => r.score == c) := by
  induction l with
  | nil => simp [insertDesc, List.filter_cons, hx]
  | cons y ys ih =>
    unfold insertDesc
    split
    · simp [List.filter_cons, hx]
    · rename_i hlt
      push_neg at hlt
      have hy : (y.score == c) = false := by
        rw [beq_eq_false_iff_ne]
        intro hyc
        rw [hyc, ← hx] at hlt
        exact absurd le_rfl (not_le.mpr hlt)
      simp [List.filter_cons, hy, ih]

theorem insertDesc_filter_ne (x : SearchResult) (l : List SearchResult) (c : ℚ)
    (hx : x.score ≠ c) :
    (insertDesc x l).filter (fun r => r.score == c) =
      l.filter (fun r => r.score == c) := by
  have hxb : (x.score == c) = false := beq_eq_false_iff_ne.mpr hx
  induction l with
  | nil => simp [insertDesc, List.filter_cons, hxb]
  | cons y ys ih =>
    unfold insertDesc
    split
    · simp [List.filter_cons, hxb]
    · simp [List.filter_cons, ih]

theorem sortDesc_filter (l : List SearchResult) (c : ℚ) :
    (sortDesc l).filter (fun r => r.score == c) = l.filter (fun r => r.score == c) := by
  induction l with
  | nil => rfl
  | cons x xs ih =>
    show (insertDesc x (sortDesc xs)).filter _ = _
    by_cases hx : x.score = c
    · rw [insertDesc_filter_eq x (sortDesc xs) c hx, ih]
      simp [List.filter_cons, hx]
    · rw [insertDesc_filter_ne x (sortDesc xs) c hx, ih]
      simp [List.filter_cons, beq_eq_false_iff_ne.mpr hx]

theorem rescore_score_eq (now : ℚ) (query : Str) (r : SearchResult) :
    (rescore now query r).score = specRankScore now query r := by
  unfold rescore specRankScore
  simp only [qAdd_eq, qMul_eq, qNat_eq, List.countP_eq_length_filter]
  split <;> ring

/-- Claim C2 (amended): the per-result score the ranker computes is the
carried-in score, plus 20 per space-separated lowercased query token longer
than 2 characters contained in the lowercased title, plus 30 for a
full-query title match, plus the source priority, plus the recency boost. -/
theorem claim_C2_amended (now : ℚ) (query : Str) (r : SearchResult) :
    (rescore now query r).score = specRankScore now query r :=
  rescore_score_eq now query r

/-- Claim C2 as stated (whitespace-separated tokens) fails on the code: on
the query abc-tab-def the source tokenizer keeps one token while the claim
formula counts two, so the scores differ. -/
theorem claim_C2_counterexample :
    (rescore 0 "abc\tdef".toList
        { id := [], title := "abc\tdef".toList, url := [], snippet := [], content := [],
          score := 0, source := "x".toList, category := none, sectionTag := none,
          last_updated := none }).score ≠
      claimScoreWs 0 "abc\tdef".toList
        { id := [], title := "abc\tdef".toList, url := [], snippet := [], content := [],
          score := 0, source := "x".toList, category := none, sectionTag := none,
          last_updated := none } := by
  have h1 :
      (rescore 0 "abc\tdef".toList
        { id := [], title := "abc\tdef".toList, url := [], snippet := [], content := [],
          score := 0, source := "x".toList, category := none, sectionTag := none,
          last_updated := none }).score = 50 := by decide
  have hc :
      (((splitP jsWhitespace (toLowerStr "abc\tdef".toList)).filter
          (fun t => 2 < t.length)).countP
        (fun t => containsSub (toLowerStr ("abc\tdef".toList)) t)) = 2 := by decide
  have hif :
      containsSub (toLowerStr ("abc\tdef".toList)) (toLowerStr ("abc\tdef".toList)) = true := by
    decide
  have hsp : sourcePriority "x".toList = 0 := by decide
  have hrb : recencyBoost 0 none = 0 := by decide
  have h2 :
      claimScoreWs 0 "abc\tdef".toList
        { id := [], title := "abc\tdef".toList, url := [], snippet := [], content := [],
          score := 0, source := "x".toList, category := none, sectionTag := none,
          last_updated := none } = 70 := by
    simp only [claimScoreWs, hc, hif, hsp, hrb, if_true]
    norm_num
  rw [h1, h2]
  norm_num

/-- Claim C3: the ranker returns exactly the input results with updated
scores (a permutation of the rescored inputs), ordered non-increasingly by
final score, and stably: for every score value, the results carrying it
keep their input order. -/
theorem claim_C3_rank_order_stable (now : ℚ) (results : List SearchResult) (query : Str) :
    List.Perm (rankResults now results query) (results.map (rescore now query))
    ∧ (rankResults now results query).Pairwise (fun a b => b.score ≤ a.score)
    ∧ ∀ c : ℚ, (rankResults now results query).filter (fun r => r.score == c)
        = (results.map (rescore now query)).filter (fun r => r.score == c) :=
  ⟨sortDesc_perm _, sortDesc_sorted _, fun c => sortDesc_filter _ c⟩

/-- Claim C1: an invalid query (missing, not a string, or trimmed length
under 2) yields a 400 with the fixed error message and the offending query
(or the empty string when falsy) echoed, and no adapter call is planned. -/
theorem claim_C1_short_query_rejected (oracle : Oracle) (now : ℚ) (req : SearchReq)
    (h : queryInvalid req.query = true) :
    unifiedSearch oracle now req = (.badRequest errQueryMsg (echoJV req.query), []) := by
  obtain ⟨q, lim, srcs⟩ := req
  unfold unifiedSearch
  match q with
  | none => rfl
  | some (JVal.jstr s) =>
    have hlen : (jsTrim s).length < 2 := by
      simpa [queryInvalid] using h
    simp [hlen]
  | some (JVal.jnum x) => rfl
  | some (JVal.jbool b) => rfl
  | some JVal.jnull => rfl

theorem claim_C1_witness :
    queryInvalid (some (JVal.jstr "x".toList)) = true
    ∧ unifiedSearch (fun _ _ _ => .error ()) 0
        ⟨some (JVal.jstr "x".toList), none, none⟩ =
        (.badRequest errQueryMsg (echoJV (some (JVal.jstr "x".toList))), []) :=
  ⟨by decide, claim_C1_short_query_rejected _ 0 _ (by decide)⟩

theorem foldl_combine (outs : List (Except Unit (List SearchResult)))
    (acc : List SearchResult) :
    outs.foldl
        (fun acc o =>
          match o with
          | .ok v => if 0 < v.length then acc ++ v else acc
          | .error _ => acc) acc
      = acc ++ (outs.map fulfilledOrEmpty).flatten := by
  induction outs generalizing acc with
  | nil => simp
  | cons o os ih =>
    match o with
    | .error e => simpa [fulfilledOrEmpty] using ih acc
    | .ok v =>
      match v with
      | [] => simpa [fulfilledOrEmpty] using ih acc
      | w :: ws =>
        simp only [List.foldl_cons, List.map_cons, List.flatten_cons, fulfilledOrEmpty]
        rw [if_pos (by simp)]
        rw [ih (acc ++ (w :: ws))]
        simp [List.append_assoc]

theorem combineSettled_eq_flatten (outs : List (Except Unit (List SearchResult))) :
    combineSettled outs = (outs.map fulfilledOrEmpty).flatten := by
  unfold combineSettled
  simpa using foldl_combine outs []

theorem planCalls_eq_specPlan (sources : List Str) (limit : ℕ) :
    planCalls sources limit = specPlan sources limit := by
  have hdz : srcDocs ≠ srcZendesk := by decide
  have hkz : srcKb ≠ srcZendesk := by decide
  have hkd : srcKb ≠ srcDocs := by decide
  by_cases hz : srcZendesk ∈ sources <;> by_cases hd : srcDocs ∈ sources <;>
    by_cases hk : srcKb ∈ sources <;>
    simp [planCalls, specPlan, defaultSources, specShare, List.filter_cons,
      hz, hd, hk, hdz, hkz, hkd]

/-- Claim C4: a valid request plans one call per enabled source in the fixed
zendesk, docs, knowledge-base order with the rounded-up shares 40/30/30
percent of the limit, and the combined output is the concatenation, in that
order, of the fulfilled result lists (a rejected or empty outcome
contributes nothing and aborts nothing). -/
theorem claim_C4_fanout_plan (oracle : Oracle) (now : ℚ) (req : SearchReq) (s : Str)
    (hq : req.query = some (JVal.jstr s)) (hlen : 2 ≤ (jsTrim s).length) :
    (unifiedSearch oracle now req).2 =
        specPlan (req.sources.getD defaultSources) (req.limit.getD 10)
    ∧ unifiedAll oracle s req =
        ((specPlan (req.sources.getD defaultSources) (req.limit.getD 10)).map
          (fun c => fulfilledOrEmpty (oracle c.source s c.share))).flatten := by
  constructor
  · obtain ⟨q, lim, srcs⟩ := req
    cases hq
    have hs : s.isEmpty = false := by
      cases s with
      | nil => exact absurd hlen (by decide)
      | cons c cs => rfl
    have h2 : ¬((jsTrim s).length < 2) := not_lt.mpr hlen
    unfold unifiedSearch
    simp [hs, h2, planCalls_eq_specPlan]
  · unfold unifiedAll
    rw [combineSettled_eq_flatten, planCalls_eq_specPlan, List.map_map]
    rfl

theorem claim_C4_witness :
    (⟨some (JVal.jstr "password reset".toList), some 5, some ["zendesk".toList]⟩ :
        SearchReq).query = some (JVal.jstr "password reset".toList)
    ∧ 2 ≤ (jsTrim "password reset".toList).length
    ∧ (unifiedSearch (fun _ _ _ => .error ()) 0
          ⟨some (JVal.jstr "password reset".toList), some 5, some ["zendesk".toList]⟩).2 =
        specPlan ((some [("zendesk".toList : Str)]).getD defaultSources) ((some 5).getD 10)
    ∧ unifiedAll (fun _ _ _ => .error ()) "password reset".toList
          ⟨some (JVal.jstr "password reset".toList), some 5, some ["zendesk".toList]⟩ =
        ((specPlan ((some [("zendesk".toList : Str)]).getD defaultSources)
            ((some 5).getD 10)).map
          (fun c => fulfilledOrEmpty ((fun _ _ _ => .error ()) c.source
            "password reset".toList c.share))).flatten :=
  ⟨rfl, by decide,
    (claim_C4_fanout_plan (fun _ _ _ => .error ()) 0 _ _ rfl (by decide)).1,
    (claim_C4_fanout_plan (fun _ _ _ => .error ()) 0 _ _ rfl (by decide)).2⟩

/-- Claim C5: every adapter maps a failed upstream exchange to the empty
list (the failure never escapes the adapter), and for any valid request the
response total counts exactly the combined successful contributions, each of
which is still present (rescored) in the ranked list, whatever any other
adapter outcome did. -/
theorem claim_C5_adapter_isolation :
    (∀ q lim, searchZendesk (.error ()) q lim = [])
    ∧ (∀ now q lim, searchDocumentation now (.error ()) q lim = [])
    ∧ (∀ q lim, searchKnowledgeBase (.error ()) q lim = [])
    ∧ ∀ (oracle : Oracle) (now : ℚ) (req : SearchReq) (s : Str),
        req.query = some (JVal.jstr s) → 2 ≤ (jsTrim s).length →
        ((unifiedSearch oracle now req).1.totalOf = (unifiedAll oracle s req).length
          ∧ ∀ r ∈ unifiedAll oracle s req,
              rescore now s r ∈ rankResults now (unifiedAll oracle s req) s) := by
  refine ⟨fun _ _ => rfl, fun _ _ _ => rfl, fun _ _ => rfl, ?_⟩
  intro oracle now req s hq hlen
  constructor
  · obtain ⟨q, lim, srcs⟩ := req
    cases hq
    have hs : s.isEmpty = false := by
      cases s with
      | nil => exact absurd hlen (by decide)
      | cons c cs => rfl
    have h2 : ¬((jsTrim s).length < 2) := not_lt.mpr hlen
    unfold unifiedSearch
    simp [hs, h2, HandlerResp.totalOf]
  · intro r hr
    exact (sortDesc_perm ((unifiedAll oracle s req).map (rescore now s))).mem_iff.mpr
      (List.mem_map_of_mem _ hr)

theorem claim_C5_witness :
    (⟨some (JVal.jstr "ab".toList), none, none⟩ : SearchReq).query =
        some (JVal.jstr "ab".toList)
    ∧ 2 ≤ (jsTrim "ab".toList).length
    ∧ (unifiedSearch
          (fun src _ _ =>
            if src = srcZendesk then .error ()
            else if src = srcDocs then
              .ok [{ id := "d1".toList, title := "t".toList, url := [], snippet := [],
                     content := [], score := 3, source := "docs".toList, category := none,
                     sectionTag := none, last_updated := none }]
            else .ok []) 0
          ⟨some (JVal.jstr "ab".toList), none, none⟩).1.totalOf =
        (unifiedAll
          (fun src _ _ =>
            if src = srcZendesk then .error ()
            else if src = srcDocs then
              .ok [{ id := "d1".toList, title := "t".toList, url := [], snippet := [],
                     content := [], score := 3, source := "docs".toList, category := none,
                     sectionTag := none, last_updated := none }]
            else .ok []) "ab".toList ⟨some (JVal.jstr "ab".toList), none, none⟩).length
    ∧ rescore 0 "ab".toList
          { id := "d1".toList, title := "t".toList, url := [], snippet := [],
            content := [], score := 3, source := "docs".toList, category := none,
            sectionTag := none, last_updated := none } ∈
        rankResults 0
          (unifiedAll
            (fun src _ _ =>
              if src = srcZendesk then .error ()
              else if src = srcDocs then
                .ok [{ id := "d1".toList, title := "t".toList, url := [], snippet := [],
                       content := [], score := 3, source := "docs".toList, category := none,
                       sectionTag := none, last_updated := none }]
              else .ok []) "ab".toList ⟨some (JVal.jstr "ab".toList), none, none⟩)
          "ab".toList :=
  ⟨rfl, by decide,
    (claim_C5_adapter_isolation.2.2.2 _ 0 _ _ rfl (by decide)).1,
    (claim_C5_adapter_isolation.2.2.2 _ 0 _ _ rfl (by decide)).2 _ (by decide)⟩

theorem foldl_qAdd_sum (f : Str → ℚ) (l : List Str) (init : ℚ) :
    l.foldl (fun acc w => qAdd acc (f w)) init = init + (l.map f).sum := by
  induction l generalizing init with
  | nil => simp
  | cons w ws ih =>
    simp only [List.foldl_cons, List.map_cons, List.sum_cons]
    rw [ih, qAdd_eq]
    ring

theorem docLexScore_eq (query : Str) (d : DocEntry) :
    docLexScore (jsTrim (toLowerStr query))
        ((splitP jsWhitespace (jsTrim (toLowerStr query))).filter (fun w => 2 < w.length)) d
      = specDocLex query d := by
  unfold docLexScore specDocLex
  have hb : (match d.b with
      | some bs => toLowerStr (joinSep " ".toList bs)
      | none => ([] : Str)) = toLowerStr (joinSep " ".toList (d.b.getD [])) := by
    cases d.b <;> rfl
  simp only [hb]
  rw [foldl_qAdd_sum, qAdd_eq]
  congr 1
  congr 1
  apply List.map_congr_left
  intro w _
  rw [qAdd_eq]

/-- Claim C6: on a fulfilled index fetch the documentation adapter keeps
exactly the documents with a title, a url and a positive claim-formula
lexical score, builds their records with that score multiplied by 0.9,
sorts them descending by score and truncates to the adapter limit. -/
theorem claim_C6_docs_scoring (now : ℚ) (docs : List DocEntry) (query : Str) (limit : ℕ) :
    searchDocumentation now (.ok docs) query limit =
      (sortDesc (docs.filterMap (fun d =>
        if ¬d.t.isEmpty ∧ ¬d.u.isEmpty ∧ 0 < specDocLex query d
        then some (specDocResult now query d) else none))).take limit := by
  simp only [searchDocumentation]
  congr 2
  apply List.filterMap_congr
  intro d _
  by_cases ht : d.t.isEmpty
  · simp [ht]
  by_cases hu : d.u.isEmpty
  · simp [ht, hu]
  have hmk : (mkRat 9 10) = (9 / 10 : ℚ) := by
    rw [Rat.mkRat_eq_div]
    norm_num
  simp only [ht, hu, Bool.or_false, Bool.false_or, Bool.false_eq_true, if_false,
    docLexScore_eq, not_false_iff, true_and]
  rw [qMul_eq, hmk]
  rfl

/-- Claim C10: every documentation result is stamped with the adapter's own
current time as last_updated (the index has no timestamps), so the ranker's
recency boost for it, taken at any ranking instant within the following week
(in particular within the same request), is the full 15. -/
theorem claim_C10_docs_recency :
    (∀ (now : ℚ) (resp : Except Unit (List DocEntry)) (q : Str) (lim : ℕ),
        ∀ r ∈ searchDocumentation now resp q lim, r.last_updated = some now)
    ∧ ∀ tA tB : ℚ, 0 ≤ qSub tB tA → qSub tB tA < 604800000 →
        recencyBoost tB (some tA) = 15 := by
  constructor
  · intro now resp q lim r hr
    match resp with
    | .error _ => cases hr
    | .ok docs =>
      simp only [searchDocumentation] at hr
      rcases List.mem_filterMap.mp
          ((sortDesc_perm _).mem_iff.mp (List.mem_of_mem_take hr)) with ⟨d, _, hd⟩
      split at hd
      · exact absurd hd (by simp)
      · split at hd
        · cases hd
          rfl
        · exact absurd hd (by simp)
  · intro tA tB h0 h7
    have h7' : tB - tA < 604800000 := by rwa [qSub_eq] at h7
    have h0' : 0 ≤ tB - tA := by rwa [qSub_eq] at h0
    simp only [recencyBoost, qAdd_eq]
    have hdiv : qDiv (qSub tB tA) 86400000 < 7 := by
      rw [qDiv_eq, qSub_eq]
      rw [div_lt_iff₀ (by norm_num : (0:ℚ) < 86400000)]
      linarith
    have hdiv30 : qDiv (qSub tB tA) 86400000 < 30 := lt_trans hdiv (by norm_num)
    rw [if_pos hdiv30, if_pos hdiv]
    norm_num

theorem claim_C10_witness :
    ({ id := "docs_1".toList, title := "Guide".toList, url := docsHost ++ "/g".toList,
       snippet := "Documentation - Guide".toList, content := "Guide - ".toList,
       score := 108, source := "docs".toList, category := some ("Documentation".toList),
       sectionTag := none, last_updated := some 5 } : SearchResult) ∈
        searchDocumentation 5 (.ok [⟨"Guide".toList, "/g".toList, none, 1⟩])
          "guide".toList 3
    ∧ ({ id := "docs_1".toList, title := "Guide".toList, url := docsHost ++ "/g".toList,
         snippet := "Documentation - Guide".toList, content := "Guide - ".toList,
         score := 108, source := "docs".toList, category := some ("Documentation".toList),
         sectionTag := none, last_updated := some 5 } : SearchResult).last_updated = some 5
    ∧ 0 ≤ qSub 12 5 ∧ qSub 12 5 < 604800000 ∧ recencyBoost 12 (some 5) = 15 :=
  ⟨by decide,
    claim_C10_docs_recency.1 5 (.ok [⟨"Guide".toList, "/g".toList, none, 1⟩])
      "guide".toList 3 _ (by decide),
    by decide, by decide,
    claim_C10_docs_recency.2 5 12 (by decide) (by decide)⟩

theorem sourcePriority_nonneg (src : Str) : 0 ≤ sourcePriority src := by
  unfold sourcePriority
  split_ifs <;> norm_num

theorem recencyBoost_nonneg (now : ℚ) (t : Option ℚ) : 0 ≤ recencyBoost now t := by
  match t with
  | none => norm_num [recencyBoost]
  | some x =>
    simp only [recencyBoost, qAdd_eq]
    split_ifs <;> norm_num

theorem rescore_nonneg (now : ℚ) (q : Str) (r : SearchResult) (h : 0 ≤ r.score) :
    0 ≤ (rescore now q r).score := by
  rw [rescore_score_eq]
  simp only [specRankScore]
  have h20 : (0:ℚ) ≤ 20 * (((splitP (fun c => c == ' ') (toLowerStr q)).filter
      (fun t => 2 < t.length)).countP
      (fun t => containsSub (toLowerStr r.title) t) : ℚ) := by positivity
  refine add_nonneg (add_nonneg (add_nonneg (add_nonneg h h20) ?_) ?_) ?_
  · split_ifs <;> norm_num
  · exact sourcePriority_nonneg _
  · exact recencyBoost_nonneg _ _

theorem searchZendesk_nonneg (resp : Except Unit (List Article)) (q : Str) (lim : ℕ)
    (h : scoresOkB resp = true) :
    ∀ r ∈ searchZendesk resp q lim, 0 ≤ r.score := by
  intro r hr
  match resp with
  | .error _ => cases hr
  | .ok as =>
    simp only [scoresOkB, List.all_eq_true] at h
    rcases List.mem_map.mp hr with ⟨a, ha, rfl⟩
    simpa using h a ha

theorem searchKnowledgeBase_nonneg (resp : Except Unit (List Article)) (q : Str) (lim : ℕ)
    (h : scoresOkB resp = true) :
    ∀ r ∈ searchKnowledgeBase resp q lim, 0 ≤ r.score := by
  intro r hr
  match resp with
  | .error _ => cases hr
  | .ok as =>
    simp only [scoresOkB, List.all_eq_true] at h
    rcases List.mem_map.mp hr with ⟨a, ha, rfl⟩
    show 0 ≤ qMul (a.score.getD 0) (mkRat 8 10)
    rw [qMul_eq]
    have h8 : (0:ℚ) ≤ mkRat 8 10 := by
      rw [Rat.mkRat_eq_div]
      norm_num
    exact mul_nonneg (by simpa using h a ha) h8

theorem searchDocumentation_nonneg (now : ℚ) (resp : Except Unit (List DocEntry))
    (q : Str) (lim : ℕ) :
    ∀ r ∈ searchDocumentation now resp q lim, 0 ≤ r.score := by
  intro r hr
  match resp with
  | .error _ => cases hr
  | .ok docs =>
    simp only [searchDocumentation] at hr
    rcases List.mem_filterMap.mp
        ((sortDesc_perm _).mem_iff.mp (List.mem_of_mem_take hr)) with ⟨d, _, hd⟩
    split at hd
    · exact absurd hd (by simp)
    · split at hd
      · rename_i hpos
        cases hd
        show 0 ≤ qMul _ (mkRat 9 10)
        rw [qMul_eq]
        have h9 : (0:ℚ) ≤ mkRat 9 10 := by
          rw [Rat.mkRat_eq_div]
          norm_num
        exact mul_nonneg (le_of_lt hpos) h9
      · exact absurd hd (by simp)

theorem mkOracle_nonneg (now : ℚ) (net : Net)
    (hz : scoresOkB net.zendesk = true) (hk : scoresOkB net.kb = true)
    (src q : Str) (lim : ℕ) :
    ∀ r ∈ fulfilledOrEmpty (mkOracle now net src q lim), 0 ≤ r.score := by
  intro r hr
  by_cases h1 : src = srcZendesk
  · simp only [mkOracle, if_pos h1, fulfilledOrEmpty] at hr
    exact searchZendesk_nonneg _ q lim hz r hr
  by_cases h2 : src = srcDocs
  · simp only [mkOracle, if_neg h1, if_pos h2, fulfilledOrEmpty] at hr
    exact searchDocumentation_nonneg now _ q lim r hr
  by_cases h3 : src = srcKb
  · simp only [mkOracle, if_neg h1, if_neg h2, if_pos h3, fulfilledOrEmpty] at hr
    exact searchKnowledgeBase_nonneg _ q lim hk r hr
  · simp only [mkOracle, if_neg h1, if_neg h2, if_neg h3, fulfilledOrEmpty] at hr
    cases hr

theorem unifiedAll_nonneg (now : ℚ) (net : Net) (s : Str) (req : SearchReq)
    (hz : scoresOkB net.zendesk = true) (hk : scoresOkB net.kb = true) :
    ∀ r ∈ unifiedAll (mkOracle now net) s req, 0 ≤ r.score := by
  intro r hr
  unfold unifiedAll at hr
  rw [combineSettled_eq_flatten] at hr
  rcases List.mem_flatten.mp hr with ⟨l, hl, hrl⟩
  rcases List.mem_map.mp hl with ⟨o, ho, rfl⟩
  rcases List.mem_map.mp ho with ⟨c, _, rfl⟩
  exact mkOracle_nonneg now net hz hk c.source s c.share r hrl

theorem unifiedSearch_results_shape (oracle : Oracle) (now : ℚ) (req : SearchReq) :
    (unifiedSearch oracle now req).1.resultsOf = []
    ∨ ∃ s, req.query = some (JVal.jstr s)
        ∧ (unifiedSearch oracle now req).1.resultsOf =
            (rankResults now (unifiedAll oracle s req) s).take (req.limit.getD 10) := by
  obtain ⟨q, lim, srcs⟩ := req
  match q with
  | none => exact Or.inl rfl
  | some JVal.jnull => exact Or.inl rfl
  | some (JVal.jbool b) => exact Or.inl rfl
  | some (JVal.jnum x) => exact Or.inl rfl
  | some (JVal.jstr s) =>
    by_cases hv : s.isEmpty || decide ((jsTrim s).length < 2)
    · left
      unfold unifiedSearch
      simp [hv, HandlerResp.resultsOf]
    · right
      refine ⟨s, rfl, ?_⟩
      unfold unifiedSearch
      simp [hv, HandlerResp.resultsOf]

/-- Claim C9 (amended): provided the upstream help-center responses carry
nonnegative article scores, every result in the search response has a
nonnegative score (the ranker boosts only add nonnegative terms, the
documentation adapter only produces positive scores, and the help-center
adapters scale the upstream scores by nonnegative weights). -/
theorem claim_C9_amended (net : Net) (now : ℚ) (req : SearchReq)
    (hz : scoresOkB net.zendesk = true) (hk : scoresOkB net.kb = true) :
    ∀ r ∈ (runUnified net now req).1.resultsOf, 0 ≤ r.score := by
  intro r hr
  unfold runUnified at hr
  rcases unifiedSearch_results_shape (mkOracle now net) now req with hsh | ⟨s, hq, hsh⟩
  · rw [hsh] at hr
    cases hr
  · rw [hsh] at hr
    rcases List.mem_map.mp
        ((sortDesc_perm _).mem_iff.mp (List.mem_of_mem_take hr)) with ⟨r0, hr0, rfl⟩
    exact rescore_nonneg now s r0 (unifiedAll_nonneg now net s _ hz hk r0 hr0)

theorem claim_C9_witness :
    scoresOkB (Except.ok [(⟨1, "aaa".toList, "u".toList, none, some 3, none, none⟩ :
        Article)]) = true
    ∧ scoresOkB (Except.error ()) = true
    ∧ ({ id := "zendesk_1".toList, title := "aaa".toList, url := "u".toList,
         snippet := noPreview, content := [], score := 13, source := "zendesk".toList,
         category := none, sectionTag := none, last_updated := none } :
          SearchResult) ∈
        (runUnified
          ⟨.ok [⟨1, "aaa".toList, "u".toList, none, some 3, none, none⟩], .error (),
            .error ()⟩ 0
          ⟨some (JVal.jstr "zq".toList), none, none⟩).1.resultsOf
    ∧ (0:ℚ) ≤ 13 :=
  ⟨by decide, by decide, by decide,
    claim_C9_amended
      ⟨.ok [⟨1, "aaa".toList, "u".toList, none, some 3, none, none⟩], .error (), .error ()⟩
      0 ⟨some (JVal.jstr "zq".toList), none, none⟩ (by decide) (by decide)
      { id := "zendesk_1".toList, title := "aaa".toList, url := "u".toList,
        snippet := noPreview, content := [], score := 13, source := "zendesk".toList,
        category := none, sectionTag := none, last_updated := none } (by decide)⟩

/-- Claim C9 fails as stated: the help-center adapter passes upstream scores
through verbatim, so a negative upstream article score (here -100) surfaces
as a negative result score (-90 after the +10 source boost) in the
response. -/
theorem claim_C9_counterexample :
    ((runUnified
        ⟨.ok [⟨1, "aaa".toList, "u".toList, none, some (-100), none, none⟩], .error (),
          .error ()⟩ 0
        ⟨some (JVal.jstr "zq".toList), none, none⟩).1.resultsOf.any
      (fun r => decide (r.score < 0))) = true := by decide

theorem replaceAllF_not_mem (p : Char) (ps rep : Str) (fuel : ℕ) (s : Str)
    (h : p ∉ s) : replaceAllF p ps rep fuel s = s := by
  induction fuel generalizing s with
  | zero =>
    match s with
    | [] => rfl
    | c :: cs => rfl
  | succ fuel ih =>
    match s with
    | [] => rfl
    | c :: cs =>
      have hc : (c == p) = false := by
        simp only [beq_eq_false_iff_ne]
        intro hcp
        exact h (hcp ▸ List.mem_cons_self c cs)
      simp only [replaceAllF, hc, Bool.false_and, Bool.false_eq_true, if_false]
      rw [ih cs (fun hm => h (List.mem_cons_of_mem c hm))]

theorem replaceAll_not_mem (p : Char) (ps rep : Str) (s : Str) (h : p ∉ s) :
    replaceAll p ps rep s = s :=
  replaceAllF_not_mem p ps rep s.length s h

theorem stripTagsF_not_mem (fuel : ℕ) (s : Str) (h : '<' ∉ s) :
    stripTagsF fuel s = s := by
  induction fuel generalizing s with
  | zero =>
    match s with
    | [] => rfl
    | c :: cs => rfl
  | succ fuel ih =>
    match s with
    | [] => rfl
    | c :: cs =>
      have hc : ¬(c = '<' ∧ '>' ∈ cs) := by
        rintro ⟨rfl, _⟩
        exact h (List.mem_cons_self _ _)
      simp only [stripTagsF, if_neg hc]
      rw [ih cs (fun hm => h (List.mem_cons_of_mem c hm))]

theorem stripTags_not_mem (s : Str) (h : '<' ∉ s) : stripTags s = s :=
  stripTagsF_not_mem s.length s h

theorem collapseWs_id (s : Str)
    (hws : ∀ c ∈ s, jsWhitespace c = true → c = ' ')
    (hnd : containsSub s ("  ".toList) = false) :
    collapseWs s = s := by
  induction s with
  | nil => rfl
  | cons c cs ih =>
    have hnd' : containsSub cs ("  ".toList) = false := by
      unfold containsSub at hnd
      exact (Bool.or_eq_false_iff.mp hnd).2
    have hws' : ∀ d ∈ cs, jsWhitespace d = true → d = ' ' :=
      fun d hd => hws d (List.mem_cons_of_mem c hd)
    cases cs with
    | nil =>
      by_cases hc : jsWhitespace c = true
      · have hceq : c = ' ' := hws c (List.mem_cons_self c []) hc
        simp [collapseWs, hc, hceq]
      · simp only [Bool.not_eq_true] at hc
        simp [collapseWs, hc]
    | cons d cs2 =>
      by_cases hc : jsWhitespace c = true
      · have hceq : c = ' ' := hws c (List.mem_cons_self _ _) hc
        have hdne : jsWhitespace d = false := by
          by_contra hdw
          rw [Bool.not_eq_false] at hdw
          have hdeq : d = ' ' := hws' d (List.mem_cons_self _ _) hdw
          rw [hceq] at hnd
          rw [hdeq] at hnd
          simp [containsSub, isPrefixOfB] at hnd
        simp [collapseWs, hc, hdne, hceq, ih hws' hnd']
      · simp only [Bool.not_eq_true] at hc
        simp [collapseWs, hc, ih hws' hnd']

/-- Claim C8 (amended): on input with no tag opener and no entity ampersand,
whose whitespace is single plain spaces with no two adjacent, and whose
trimmed form is nonempty and no longer than maxLength, the normalizer
returns exactly the trimmed input. -/
theorem claim_C8_amended (s : Str) (maxLength : ℕ)
    (hm : noMarkupB s = true) (hsp : singleSpacedB s = true)
    (hne : jsTrim s ≠ []) (hlen : (jsTrim s).length ≤ maxLength) :
    stripHtmlAndCreateSnippet s maxLength = jsTrim s := by
  simp only [noMarkupB, List.all_eq_true, Bool.and_eq_true, bne_iff_ne, ne_eq] at hm
  have hlt : '<' ∉ s := fun hmem => (hm '<' hmem).1 rfl
  have hamp : '&' ∉ s := fun hmem => (hm '&' hmem).2 rfl
  unfold singleSpacedB at hsp
  rw [Bool.and_eq_true] at hsp
  obtain ⟨h1, h2⟩ := hsp
  have hnd : containsSub s ("  ".toList) = false := by
    rwa [Bool.not_eq_true'] at h2
  have hws : ∀ c ∈ s, jsWhitespace c = true → c = ' ' := by
    intro c hc hwc
    have hall := List.all_eq_true.mp h1 c hc
    rw [hwc] at hall
    simpa using hall
  have hnorm : normalizeText s = jsTrim s := by
    unfold normalizeText
    have hdec : decodeEntities s = s := by
      simp only [decodeEntities]
      rw [replaceAll_not_mem _ _ _ _ hamp, replaceAll_not_mem _ _ _ _ hamp,
        replaceAll_not_mem _ _ _ _ hamp, replaceAll_not_mem _ _ _ _ hamp,
        replaceAll_not_mem _ _ _ _ hamp, replaceAll_not_mem _ _ _ _ hamp]
    rw [stripTags_not_mem s hlt, hdec, collapseWs_id s hws hnd]
  have hsE : s.isEmpty = false := by
    cases s with
    | nil => exact absurd rfl hne
    | cons a as => rfl
  have htne : (jsTrim s).isEmpty = false := by
    cases h : jsTrim s with
    | nil => exact absurd h hne
    | cons a as => rfl
  unfold stripHtmlAndCreateSnippet
  simp only [hsE, Bool.false_eq_true, if_false, hnorm]
  rw [if_neg (not_lt.mpr hlen)]
  simp [htne]

/-- Claim C8 fails as stated: the normalizer also collapses internal
whitespace runs, so the markup-free input a-space-space-b of length 4 under
maxLength 200 comes back as a-space-b, not as its trimmed self. -/
theorem claim_C8_counterexample :
    stripHtmlAndCreateSnippet ("a  b".toList) 200 ≠ jsTrim ("a  b".toList) := by decide

theorem claim_C8_witness :
    noMarkupB (" hello world ".toList) = true
    ∧ singleSpacedB (" hello world ".toList) = true
    ∧ jsTrim (" hello world ".toList) ≠ []
    ∧ (jsTrim (" hello world ".toList)).length ≤ 200
    ∧ stripHtmlAndCreateSnippet (" hello world ".toList) 200 =
        jsTrim (" hello world ".toList) :=
  ⟨by decide, by decide, by decide, by decide,
    claim_C8_amended (" hello world ".toList) 200 (by decide) (by decide) (by decide)
      (by decide)⟩

theorem lastIdxOf_eq_spec (c : Char) (t : Str) :
    lastIdxOf c t =
      ((List.range t.length).filter (fun i => t.get? i == some c)).getLast? := by
  induction t with
  | nil => rfl
  | cons a as ih =>
    have hmap :
        (List.map Nat.succ (List.range as.length)).filter
            (fun i => (a :: as).get? i == some c)
          = ((List.range as.length).filter (fun i => as.get? i == some c)).map
              Nat.succ := by
      rw [List.filter_map]
      rfl
    have hsplit :
        (List.range (a :: as).length).filter (fun i => (a :: as).get? i == some c)
          = (if a == c then [0] else [])
            ++ ((List.range as.length).filter (fun i => as.get? i == some c)).map
                Nat.succ := by
      rw [List.length_cons, List.range_succ_eq_map, List.filter_cons, hmap]
      by_cases hac : (a == c) = true
      · simp [hac]
      · simp only [Bool.not_eq_true] at hac
        simp [hac]
    rw [hsplit, List.getLast?_append, List.getLast?_map]
    show (match lastIdxOf c as with
          | some i => some (i + 1)
          | none => if a == c then some 0 else none) = _
    rw [ih]
    cases hL : ((List.range as.length).filter (fun i => as.get? i == some c)).getLast? with
    | none =>
      by_cases hac : (a == c) = true
      · simp [hac]
      · simp only [Bool.not_eq_true] at hac
        simp [hac]
    | some i =>
      simp [Option.or]

/-- Claim C7: when the normalized text exceeds maxLength, the snippet is the
maxLength-character prefix, cut back at the last space of that prefix when
that space sits beyond 70 percent of maxLength and left whole otherwise,
with the three-dot ellipsis marker appended in either case. -/
theorem claim_C7_truncation (s : Str) (maxLength : ℕ)
    (h : maxLength < (normalizeText s).length) :
    stripHtmlAndCreateSnippet s maxLength =
      (match lastSpaceSpec ((normalizeText s).take maxLength) with
       | some i =>
         if qMul (qNat maxLength) (mkRat 7 10) < qNat i then
           ((normalizeText s).take maxLength).take i ++ "...".toList
         else (normalizeText s).take maxLength ++ "...".toList
       | none => (normalizeText s).take maxLength ++ "...".toList) := by
  have hsne : s.isEmpty = false := by
    cases s with
    | nil =>
      have h0 : normalizeText ([] : Str) = [] := rfl
      rw [h0] at h
      exact absurd h (Nat.not_lt_zero _)
    | cons a as => rfl
  unfold stripHtmlAndCreateSnippet
  simp only [hsne, Bool.false_eq_true, if_false]
  generalize ht : normalizeText s = t at h ⊢
  rw [if_pos h]
  have hlast : jsLastIndexOf (t.take maxLength) ' '
      = (lastSpaceSpec (t.take maxLength)).elim (-1) (fun i => (i : ℤ)) := by
    unfold jsLastIndexOf lastSpaceSpec
    rw [lastIdxOf_eq_spec]
  cases hls : lastSpaceSpec (t.take maxLength) with
  | none =>
    rw [hls] at hlast
    simp only [Option.elim] at hlast
    rw [hlast]
    have hcond : ¬(qMul (qNat maxLength) (mkRat 7 10) < qInt (-1)) := by
      rw [qMul_eq, qNat_eq, qInt_eq]
      have h9 : (0:ℚ) ≤ mkRat 7 10 := by
        rw [Rat.mkRat_eq_div]
        norm_num
      have : (0:ℚ) ≤ (maxLength : ℚ) * mkRat 7 10 :=
        mul_nonneg (by positivity) h9
      push_cast
      intro hcontra
      linarith
    rw [if_neg hcond]
    simp
  | some i =>
    rw [hls] at hlast
    simp only [Option.elim] at hlast
    rw [hlast]
    have hqq : qInt ((i : ℕ) : ℤ) = qNat i := by
      rw [qInt_eq, qNat_eq]
      push_cast
      rfl
    have htn : ((i : ℕ) : ℤ).toNat = i := Int.toNat_natCast i
    rw [hqq, htn]
    by_cases hcond : qMul (qNat maxLength) (mkRat 7 10) < qNat i
    · rw [if_pos hcond]
      simp [hcond]
    · rw [if_neg hcond]
      simp [hcond]

theorem claim_C7_witness :
    20 < (normalizeText "hello world this is long".toList).length
    ∧ stripHtmlAndCreateSnippet "hello world this is long".toList 20 =
        (match lastSpaceSpec ((normalizeText "hello world this is long".toList).take 20) with
         | some i =>
           if qMul (qNat 20) (mkRat 7 10) < qNat i then
             ((normalizeText "hello world this is long".toList).take 20).take i
               ++ "...".toList
           else (normalizeText "hello world this is long".toList).take 20 ++ "...".toList
         | none => (normalizeText "hello world this is long".toList).take 20
             ++ "...".toList) :=
  ⟨by decide, claim_C7_truncation ("hello world this is long".toList) 20 (by decide)⟩
